import Mathlib

/-!
Verification development for the GPU command-trace playback engine
(xenia gpu TracePlayer, source file src/xenia/gpu/trace_player.cc).

The trace buffer is embedded as a list of bytes; the replay loop
PlayTraceOnThread is embedded as a step function over record tags plus a
fuelled loop (the fuel chosen by the wrapper is always sufficient because
every recognised record advances the cursor by at least four bytes; an
unrecognised tag does not advance the cursor at all, which in the source
is an infinite loop and is modelled by the distinct terminal result
stuck).

Modelled from the spec: the record layouts, the numeric tag values and the
playback-mode enumeration come from trace_protocol.h and trace_player.h,
which are not part of the provided sources; they follow section 3 and
section 6 of the specification (a record is a 4-byte little-endian tag
followed by 4-byte fields, payload length derivable from the header).
Modelled from the spec: DecompressMemory is likewise not part of the
provided sources and is modelled per sections 4.2 and 6 as a block
decompressor that must produce exactly the declared byte count, a
mismatch being a CorruptTrace condition.
-/

namespace XeTrace

abbrev Bytes := List Nat

abbrev Mem := Nat → Nat

/-- Little-endian 32-bit load at a byte offset, as xe load uint32. -/
def load32 (data : Bytes) (pos : Nat) : Nat :=
  data.getD pos 0 + 256 * data.getD (pos + 1) 0 + 65536 * data.getD (pos + 2) 0 +
    16777216 * data.getD (pos + 3) 0

/-- The len bytes of the buffer starting at pos. -/
def slice (data : Bytes) (pos len : Nat) : Bytes :=
  (data.drop pos).take len

/-- memcpy of a byte list into physical memory at a base address. -/
def writeBytes (m : Mem) (base : Nat) (bs : Bytes) : Mem :=
  fun a => if base ≤ a ∧ a < base + bs.length then bs.getD (a - base) 0 else m a

/-- Swap dispatch mode of the command processor. -/
inductive SwapMode where
  | kNormal
  | kIgnored
  deriving DecidableEq

/-- Modelled from the spec: playback stop policy (trace_player.h is not in
the provided sources); BreakOnSwap is the mode exercised by the player. -/
inductive TracePlaybackMode where
  | kUntilEnd
  | kBreakOnSwap
  deriving DecidableEq

/-- Observable state driven by the replay loop: emulated physical memory,
the ordered log of ExecutePacket calls, the ordered log of IssueSwap
calls, the swap dispatch mode, the playing flag and the player cursor
fields of TracePlayer. -/
structure ReplayState where
  memory : Mem
  executed : List (Nat × Nat)
  swaps : List (Nat × Nat × Nat)
  swap_mode : SwapMode
  playing_trace : Bool
  player_start_ptr : Nat
  player_target_ptr : Nat
  player_current_ptr : Nat

/-- Outcome of one iteration of the while loop in PlayTraceOnThread:
advance by sz bytes, return because of a pending break at a PacketEnd,
abort with CorruptTrace (only from the spec-modelled decompressor), or
spin forever on an unrecognised tag (the switch in the source has no
default case, so the cursor is never advanced and the loop never
terminates; stuckStep is the terminal abstraction of that divergence). -/
inductive StepOut where
  | advance (sz : Nat) (pb : Bool) (pp : Option (Nat × Nat)) (s : ReplayState)
  | haltStep (s : ReplayState)
  | corruptStep (s : ReplayState)
  | stuckStep (s : ReplayState)

/-- One iteration of the while loop of PlayTraceOnThread at cursor ptr,
with pending-break flag pb and pending packet pp.  Tag values 0..8 follow
the order of the record table in section 3 of the specification
(PrimaryBufferStart, PrimaryBufferEnd, IndirectBufferStart,
IndirectBufferEnd, PacketStart, PacketEnd, MemoryRead, MemoryWrite,
Event); record sizes are the 4-byte tag plus the 4-byte fields of that
table. -/
def stepRecord (d : Bytes → Bytes) (mode : TracePlaybackMode) (data : Bytes)
    (ptr : Nat) (pb : Bool) (pp : Option (Nat × Nat)) (s : ReplayState) : StepOut :=
  match load32 data ptr, pp with
  | 0, _ =>
    .advance (8 + 4 * load32 data (ptr + 4)) pb pp {s with player_current_ptr := ptr}
  | 1, _ =>
    .advance 4 pb pp {s with player_current_ptr := ptr}
  | 2, _ =>
    .advance (8 + 4 * load32 data (ptr + 4)) pb pp {s with player_current_ptr := ptr}
  | 3, _ =>
    .advance 4 pb pp {s with player_current_ptr := ptr}
  | 4, _ =>
    .advance (12 + 4 * load32 data (ptr + 8)) pb
      (some (load32 data (ptr + 4), load32 data (ptr + 8)))
      {s with player_current_ptr := ptr,
              memory := writeBytes s.memory (load32 data (ptr + 4))
                (slice data (ptr + 12) (4 * load32 data (ptr + 8)))}
  | 5, some pkt =>
    if pb then
      .haltStep {s with player_current_ptr := ptr, executed := s.executed ++ [pkt]}
    else
      .advance 4 pb none {s with player_current_ptr := ptr, executed := s.executed ++ [pkt]}
  | 5, none =>
    if pb then .haltStep {s with player_current_ptr := ptr}
    else .advance 4 pb none {s with player_current_ptr := ptr}
  | 6, _ =>
    if load32 data (ptr + 12) = 0 then
      .advance (16 + load32 data (ptr + 8)) pb pp
        {s with player_current_ptr := ptr,
                memory := writeBytes s.memory (load32 data (ptr + 4))
                  (slice data (ptr + 16) (load32 data (ptr + 8)))}
    else
      if (d (slice data (ptr + 16) (load32 data (ptr + 8)))).length = load32 data (ptr + 12) then
        .advance (16 + load32 data (ptr + 8)) pb pp
          {s with player_current_ptr := ptr,
                  memory := writeBytes s.memory (load32 data (ptr + 4))
                    (d (slice data (ptr + 16) (load32 data (ptr + 8))))}
      else .corruptStep {s with player_current_ptr := ptr}
  | 7, _ =>
    .advance (8 + load32 data (ptr + 4)) pb pp {s with player_current_ptr := ptr}
  | 8, _ =>
    .advance 8
      (if load32 data (ptr + 4) = 0 ∧ mode = TracePlaybackMode.kBreakOnSwap then true else pb)
      pp {s with player_current_ptr := ptr}
  | _, _ =>
    .stuckStep {s with player_current_ptr := ptr}

/-- Result of the whole while loop: normal exit with the final cursor,
pending-break flag and pending packet; early return on a triggered stop;
CorruptTrace abort; divergence on an unrecognised tag (with the cursor
position at which the loop spins); or fuel exhaustion (never reached from
the playLoop wrapper). -/
inductive LoopResult where
  | finished (ptr : Nat) (pb : Bool) (pp : Option (Nat × Nat)) (s : ReplayState)
  | halted (s : ReplayState)
  | corrupt (s : ReplayState)
  | stuck (ptr : Nat) (s : ReplayState)
  | fuelOut (s : ReplayState)

/-- Fuelled form of the while loop of PlayTraceOnThread. -/
def playLoopFuel (d : Bytes → Bytes) (mode : TracePlaybackMode) (data : Bytes)
    (endPos : Nat) : Nat → Nat → Bool → Option (Nat × Nat) → ReplayState → LoopResult
  | 0, _, _, _, s => .fuelOut s
  | fuel + 1, ptr, pb, pp, s =>
    if ptr < endPos then
      match stepRecord d mode data ptr pb pp s with
      | .advance sz pb2 pp2 s2 => playLoopFuel d mode data endPos fuel (ptr + sz) pb2 pp2 s2
      | .haltStep s2 => .halted s2
      | .corruptStep s2 => .corrupt s2
      | .stuckStep s2 => .stuck ptr s2
    else .finished ptr pb pp s

/-- The while loop of PlayTraceOnThread over the byte range [ptr, endPos).
The wrapper fuel endPos - ptr + 1 is always sufficient because every
recognised record advances the cursor by at least one byte. -/
def playLoop (d : Bytes → Bytes) (mode : TracePlaybackMode) (data : Bytes)
    (endPos ptr : Nat) (pb : Bool) (pp : Option (Nat × Nat)) (s : ReplayState) : LoopResult :=
  playLoopFuel d mode data endPos (endPos - ptr + 1) ptr pb pp s

/-- How a PlayTraceOnThread invocation ended. -/
inductive PlayOutcome where
  | finished
  | halted
  | corrupt
  | stuck
  | fuelOut
  deriving DecidableEq

/-- Prologue of PlayTraceOnThread: suppress swaps, set the player cursor
fields, raise the playing flag. -/
def initRun (startPos size : Nat) (s : ReplayState) : ReplayState :=
  {s with swap_mode := .kIgnored, player_start_ptr := startPos,
          player_target_ptr := startPos + size, player_current_ptr := startPos,
          playing_trace := true}

/-- Epilogue of PlayTraceOnThread on normal loop exit: clear the playing
flag, restore the swap mode and issue the placeholder presentation
IssueSwap(0, 1280, 720). -/
def finishRun (s : ReplayState) : ReplayState :=
  {s with playing_trace := false, swap_mode := .kNormal,
          swaps := s.swaps ++ [(0, 1280, 720)]}

/-- PlayTraceOnThread over the byte range [startPos, startPos + size) of
the trace buffer.  The epilogue runs only when the while loop exhausts
the range; the early return on a triggered stop, the CorruptTrace abort
and the unrecognised-tag divergence leave the state as the loop left it. -/
def PlayTraceOnThread (d : Bytes → Bytes) (data : Bytes) (startPos size : Nat)
    (mode : TracePlaybackMode) (s : ReplayState) : PlayOutcome × ReplayState :=
  match playLoop d mode data (startPos + size) startPos false none (initRun startPos size s) with
  | .finished _ _ _ s2 => (.finished, finishRun s2)
  | .halted s2 => (.halted, s2)
  | .corrupt s2 => (.corrupt, s2)
  | .stuck _ s2 => (.stuck, s2)
  | .fuelOut s2 => (.fuelOut, s2)

/-- A replay state with zeroed memory and empty logs. -/
def initState : ReplayState :=
  { memory := fun _ => 0, executed := [], swaps := [], swap_mode := .kNormal,
    playing_trace := false, player_start_ptr := 0, player_target_ptr := 0,
    player_current_ptr := 0 }

/-- A degenerate block decompressor used for concrete instances that do
not exercise decompression. -/
def zeroDecomp : Bytes → Bytes := fun _ => []

/-- Control part of a loop result: which constructor, the final cursor
and pending-break flag where present.  Independent of the replay state
and of the pending packet carried along. -/
inductive CtlResult where
  | finishedC (ptr : Nat) (pb : Bool)
  | haltedC
  | corruptC
  | stuckC (ptr : Nat)
  | fuelOutC
  deriving DecidableEq

def ctlOf : LoopResult → CtlResult
  | .finished ptr pb _ _ => .finishedC ptr pb
  | .halted _ => .haltedC
  | .corrupt _ => .corruptC
  | .stuck ptr _ => .stuckC ptr
  | .fuelOut _ => .fuelOutC

def stateOf : LoopResult → ReplayState
  | .finished _ _ _ s => s
  | .halted s => s
  | .corrupt s => s
  | .stuck _ s => s
  | .fuelOut s => s

def isFuelOut : LoopResult → Bool
  | .fuelOut _ => true
  | _ => false

/-- Agreement of the control part of two step outcomes: same constructor,
same advance size and same pending-break flag; the carried states and
pending packets are unconstrained. -/
def StepCtlAgree : StepOut → StepOut → Prop
  | .advance sz pb _ _, .advance sz2 pb2 _ _ => sz = sz2 ∧ pb = pb2
  | .haltStep _, .haltStep _ => True
  | .corruptStep _, .corruptStep _ => True
  | .stuckStep _, .stuckStep _ => True
  | _, _ => False

/-- Agreement of two step outcomes up to the memory of the carried state. -/
def StepMemAgree : StepOut → StepOut → Prop
  | .advance sz pb _ s, .advance sz2 pb2 _ s2 => sz = sz2 ∧ pb = pb2 ∧ s.memory = s2.memory
  | .haltStep s, .haltStep s2 => s.memory = s2.memory
  | .corruptStep s, .corruptStep s2 => s.memory = s2.memory
  | .stuckStep s, .stuckStep s2 => s.memory = s2.memory
  | _, _ => False

/-- Agreement of two loop results up to the memory of the carried state. -/
def ResMemAgree : LoopResult → LoopResult → Prop
  | .finished p pb _ s, .finished p2 pb2 _ s2 => p = p2 ∧ pb = pb2 ∧ s.memory = s2.memory
  | .halted s, .halted s2 => s.memory = s2.memory
  | .corrupt s, .corrupt s2 => s.memory = s2.memory
  | .stuck p s, .stuck p2 s2 => p = p2 ∧ s.memory = s2.memory
  | .fuelOut s, .fuelOut s2 => s.memory = s2.memory
  | _, _ => False

/-- End offset of the last command of a step sequence (the left bound l
when the sequence is empty). -/
def lastEnd : Nat → List Nat → Nat
  | l, [] => l
  | _, e :: rest => lastEnd e rest

/-- The byte ranges replayed by a sequence of single-step SeekCommand
calls: from the left bound to the first end offset, then from each end
offset to the next. -/
def segBounds : Nat → List Nat → List (Nat × Nat)
  | _, [] => []
  | l, e :: rest => (l, e) :: segBounds e rest

/-- The state after performing, in order, one PlayTraceOnThread
invocation per single-step SeekCommand range. -/
def seekSteps (d : Bytes → Bytes) (data : Bytes) : Nat → List Nat → ReplayState → ReplayState
  | _, [], s => s
  | l, e :: rest, s =>
      seekSteps d data e rest (PlayTraceOnThread d data l (e - l) .kBreakOnSwap s).2

/-- The single-step range [l, e) replays to a normal loop exit exactly at
e with no pending break.  This is the no-triggered-stop proviso under
which the incremental optimisation is equivalent to full replay. -/
def SegOk (d : Bytes → Bytes) (data : Bytes) (l e : Nat) : Prop :=
  ctlOf (playLoop d .kBreakOnSwap data e l false none initState) = .finishedC e false

instance (d : Bytes → Bytes) (data : Bytes) (l e : Nat) : Decidable (SegOk d data l e) := by
  unfold SegOk
  infer_instance

/-- CommandRef of the frame index: the offset just past a top-level
command (end_ptr in the source, embedded as a buffer offset). -/
structure CommandRef where
  end_ptr : Nat
  deriving DecidableEq

/-- Frame of the frame index: byte range plus the ordered command list
(start_ptr and end_ptr in the source, embedded as buffer offsets). -/
structure Frame where
  start_ptr : Nat
  end_ptr : Nat
  commands : List CommandRef
  deriving DecidableEq

/-- Cursor state of the TracePlayer seek controller, plus the read-only
frame index and the log of PlayTrace submissions (start offset, size,
playback mode), in submission order. -/
structure SeekState where
  frames : List Frame
  current_frame_index : Int
  current_command_index : Int
  submitted : List (Nat × Nat × TracePlaybackMode)
  deriving DecidableEq

def emptyFrame : Frame :=
  { start_ptr := 0, end_ptr := 0, commands := [] }

/-- The frame(i) accessor of TraceReader, embedded as list indexing; the
source performs an unchecked indexed access, which is defined behaviour
only for an in-range index. -/
def frameAt (p : SeekState) (i : Int) : Frame :=
  p.frames.getD i.toNat emptyFrame

/-- What current_frame returns, seen structurally: either the null
pointer, or the result of a frame lookup at the stored index. -/
inductive FrameLookup where
  | noFrame
  | lookupAt (i : Int)
  deriving DecidableEq

/-- The branch structure of TracePlayer current_frame: null exactly when
current_frame_index_ > frame_count(), otherwise a frame lookup at the
stored index (with no further range check). -/
def current_frame_sel (p : SeekState) : FrameLookup :=
  if (p.frames.length : Int) < p.current_frame_index then .noFrame
  else .lookupAt p.current_frame_index

/-- current_frame with the lookup resolved against the frame list. -/
def current_frame (p : SeekState) : Option Frame :=
  if (p.frames.length : Int) < p.current_frame_index then none
  else some (frameAt p p.current_frame_index)

/-- TracePlayer SeekFrame: no-op when the target equals the current
frame index; otherwise set the cursor to the target frame and its last
command index and submit a full-frame replay with BreakOnSwap. -/
def SeekFrame (p : SeekState) (target_frame : Int) : SeekState :=
  if p.current_frame_index = target_frame then p
  else
    let p1 := {p with current_frame_index := target_frame}
    let fr := frameAt p1 target_frame
    {p1 with current_command_index := (fr.commands.length : Int) - 1,
             submitted := p1.submitted ++
               [(fr.start_ptr, fr.end_ptr - fr.start_ptr, TracePlaybackMode.kBreakOnSwap)]}

/-- TracePlayer SeekCommand: no-op when the target equals the current
command index; otherwise set the cursor; target -1 submits nothing; a
nonzero target whose predecessor was current submits the incremental
delta range; any other target submits the full range from the frame
start.  Both submissions use BreakOnSwap. -/
def SeekCommand (p : SeekState) (target_command : Int) : SeekState :=
  if p.current_command_index = target_command then p
  else
    let previous_command_index := p.current_command_index
    let p1 := {p with current_command_index := target_command}
    if target_command = -1 then p1
    else
      let fr := frameAt p1 p1.current_frame_index
      let command := fr.commands.getD target_command.toNat {end_ptr := 0}
      if target_command ≠ 0 ∧ previous_command_index = target_command - 1 then
        let previous_command := fr.commands.getD (target_command - 1).toNat {end_ptr := 0}
        {p1 with submitted := p1.submitted ++
          [(previous_command.end_ptr, command.end_ptr - previous_command.end_ptr,
            TracePlaybackMode.kBreakOnSwap)]}
      else
        {p1 with submitted := p1.submitted ++
          [(fr.start_ptr, command.end_ptr - fr.start_ptr, TracePlaybackMode.kBreakOnSwap)]}

/-- Canonical trace for the Swap-between-two-packets scenario:
PacketStart(0x1000, 1 word), PacketEnd, Event(Swap), PacketStart(0x2000,
1 word), PacketEnd, with the two payload words given by their bytes. -/
def c2trace (w0 w1 w2 w3 v0 v1 v2 v3 : Nat) : Bytes :=
  [4,0,0,0, 0,16,0,0, 1,0,0,0, w0,w1,w2,w3, 5,0,0,0,
   8,0,0,0, 0,0,0,0,
   4,0,0,0, 0,32,0,0, 1,0,0,0, v0,v1,v2,v3, 5,0,0,0]

/-- The trace bytes for the C1 counterexample: Event(Swap),
PacketStart(0x1000, 0 words), PacketEnd as the first command (end offset
24), then one raw MemoryRead of one byte 171 at 0x2000 as the second
command (end offset 41). -/
def c1trace : Bytes :=
  [8,0,0,0, 0,0,0,0,
   4,0,0,0, 0,16,0,0, 0,0,0,0,
   5,0,0,0,
   6,0,0,0, 0,32,0,0, 1,0,0,0, 0,0,0,0, 171]

/-- The replay state carried by a step outcome. -/
def stepState : StepOut → ReplayState
  | .advance _ _ _ s => s
  | .haltStep s => s
  | .corruptStep s => s
  | .stuckStep s => s

/-- A PacketStart record with base 0x1000 and one payload word, used as a
concrete input for the C5 witness. -/
def c5trace : Bytes :=
  [4,0,0,0, 0,16,0,0, 1,0,0,0, 9,9,9,9]

/-- Two raw one-byte MemoryRead records, command end offsets 17 and 34,
used as a concrete input for the C1 witness. -/
def c1okTrace : Bytes :=
  [6,0,0,0, 0,16,0,0, 1,0,0,0, 0,0,0,0, 5,
   6,0,0,0, 0,32,0,0, 1,0,0,0, 0,0,0,0, 7]

end XeTrace

namespace XeTrace

/-- C9: repeating the current SeekFrame or SeekCommand target is a no-op:
the state, hence the cursor and the submission log, is unchanged. -/
theorem claimC9_seek_idempotent (p : SeekState) :
    SeekFrame p p.current_frame_index = p ∧
    SeekCommand p p.current_command_index = p := by
  constructor <;> simp [SeekFrame, SeekCommand]

/-- C10: current_frame returns null exactly when the stored frame index
exceeds frame_count; in particular at index = frame_count it does not
return null but performs a frame lookup at that index, which is one past
the valid range (the frame list has no entry there). -/
theorem claimC10_current_frame_boundary (p : SeekState) :
    (current_frame_sel p = .noFrame ↔ (p.frames.length : Int) < p.current_frame_index) ∧
    (p.current_frame_index = (p.frames.length : Int) →
      current_frame_sel p = .lookupAt p.current_frame_index ∧
      p.frames.get? p.current_frame_index.toNat = none) := by
  constructor
  · unfold current_frame_sel
    by_cases h : (p.frames.length : Int) < p.current_frame_index
    · simp [h]
    · simp [h]
  · intro hi
    have hnot : ¬ (p.frames.length : Int) < p.current_frame_index := by omega
    constructor
    · unfold current_frame_sel
      simp [hnot]
    · have : p.current_frame_index.toNat = p.frames.length := by omega
      rw [this]
      simp [List.get?_eq_none]

/-- Witness for C10 at a concrete state whose frame index equals the
frame count. -/
theorem claimC10_current_frame_boundary_witness :
    current_frame_sel
        { frames := [], current_frame_index := 0, current_command_index := -1,
          submitted := [] } = .lookupAt 0 ∧
      List.get? ([] : List Frame) 0 = none :=
  (claimC10_current_frame_boundary
      { frames := [], current_frame_index := 0, current_command_index := -1,
        submitted := [] }).2 rfl

/-- C4: an unrecognised type tag (here 99) is not a CorruptTrace abort in
the source: the switch has no default case, so the cursor is never
advanced and the while loop never terminates.  The run reaches the
divergence marker with the cursor still at the offending record and with
the invocation state never cleaned up. -/
theorem claimC4_unknown_tag_diverges :
    (PlayTraceOnThread zeroDecomp [99, 0, 0, 0] 0 4 .kBreakOnSwap initState).1 = .stuck ∧
    ((PlayTraceOnThread zeroDecomp [99, 0, 0, 0] 0 4 .kBreakOnSwap initState).2).player_current_ptr = 0 ∧
    ((PlayTraceOnThread zeroDecomp [99, 0, 0, 0] 0 4 .kBreakOnSwap initState).2).swap_mode = .kIgnored :=
  ⟨rfl, rfl, rfl⟩

/-- C5 counterexample: a trace consisting of a single PacketEnd with no
pending PacketStart replays to a normal completion (the placeholder
presentation is even issued); no CorruptTrace condition is raised and
the invocation is not aborted. -/
theorem claimC5_counterexample :
    (PlayTraceOnThread zeroDecomp [5, 0, 0, 0] 0 4 .kBreakOnSwap initState).1 = .finished ∧
    ((PlayTraceOnThread zeroDecomp [5, 0, 0, 0] 0 4 .kBreakOnSwap initState).2).executed = [] ∧
    ((PlayTraceOnThread zeroDecomp [5, 0, 0, 0] 0 4 .kBreakOnSwap initState).2).swaps =
      [(0, 1280, 720)] :=
  ⟨rfl, rfl, rfl⟩

/-- C5 amended: at most one pending packet exists at a time (it is a
single slot); a PacketStart decoded while a packet is pending silently
replaces the pending packet without executing it and without aborting
(the conclusion does not depend on pp); a PacketEnd decoded with no
pending packet executes nothing and does not abort. -/
theorem claimC5_amended (d : Bytes → Bytes) (mode : TracePlaybackMode) (data : Bytes)
    (ptr : Nat) (pb : Bool) (pp : Option (Nat × Nat)) (s : ReplayState) :
    (load32 data ptr = 4 →
      stepRecord d mode data ptr pb pp s =
        .advance (12 + 4 * load32 data (ptr + 8)) pb
          (some (load32 data (ptr + 4), load32 data (ptr + 8)))
          {s with player_current_ptr := ptr,
                  memory := writeBytes s.memory (load32 data (ptr + 4))
                    (slice data (ptr + 12) (4 * load32 data (ptr + 8)))}) ∧
    (load32 data ptr = 5 → pp = none →
      stepRecord d mode data ptr pb pp s =
        if pb then StepOut.haltStep {s with player_current_ptr := ptr}
        else StepOut.advance 4 pb none {s with player_current_ptr := ptr}) := by
  constructor
  · intro h
    simp [stepRecord, h]
  · intro h hpp
    subst hpp
    simp [stepRecord, h]

/-- Witness for C5: the PacketStart branch applied with a stale pending
packet (7, 7), and the unpaired PacketEnd branch. -/
theorem claimC5_amended_witness :
    stepRecord zeroDecomp .kBreakOnSwap c5trace 0 false (some (7, 7)) initState =
      .advance 16 false (some (4096, 1))
        {initState with player_current_ptr := 0,
                        memory := writeBytes initState.memory 4096 (slice c5trace 12 4)} ∧
    stepRecord zeroDecomp .kBreakOnSwap [5, 0, 0, 0] 0 false none initState =
      .advance 4 false none {initState with player_current_ptr := 0} :=
  ⟨(claimC5_amended zeroDecomp .kBreakOnSwap c5trace 0 false (some (7, 7)) initState).1 rfl,
   (claimC5_amended zeroDecomp .kBreakOnSwap [5, 0, 0, 0] 0 false none initState).2 rfl rfl⟩

/-- C2 counterexample: with Event(Swap) strictly between two
PacketStart/PacketEnd pairs under BreakOnSwap, the replay executes the
second packet as well: the ExecutePacket log contains both (0x1000, 1)
and (0x2000, 1), refuting that the second packet never executes and that
replay halts at the first PacketEnd. -/
theorem claimC2_counterexample :
    ((PlayTraceOnThread zeroDecomp (c2trace 170 0 0 0 187 0 0 0) 0 48
        .kBreakOnSwap initState).2).executed = [(4096, 1), (8192, 1)] ∧
    (PlayTraceOnThread zeroDecomp (c2trace 170 0 0 0 187 0 0 0) 0 48
        .kBreakOnSwap initState).1 = .halted :=
  ⟨rfl, rfl⟩

/-- The step function never touches the presentation log, the swap mode
or the playing flag: those change only in the prologue and epilogue of
PlayTraceOnThread. -/
theorem stepRecord_fixed_fields (d : Bytes → Bytes) (mode : TracePlaybackMode)
    (data : Bytes) (ptr : Nat) (pb : Bool) (pp : Option (Nat × Nat)) (s : ReplayState) :
    (stepState (stepRecord d mode data ptr pb pp s)).swaps = s.swaps ∧
    (stepState (stepRecord d mode data ptr pb pp s)).swap_mode = s.swap_mode ∧
    (stepState (stepRecord d mode data ptr pb pp s)).playing_trace = s.playing_trace := by
  rw [stepRecord.eq_def]
  generalize load32 data ptr = ty
  cases pp <;> rcases ty with _|_|_|_|_|_|_|_|_|ty <;> split_ifs <;> exact ⟨rfl, rfl, rfl⟩

/-- A step returns early (haltStep) only while decoding a PacketEnd
record, with the player cursor left on that record. -/
theorem stepRecord_halt_shape (d : Bytes → Bytes) (mode : TracePlaybackMode)
    (data : Bytes) (ptr : Nat) (pb : Bool) (pp : Option (Nat × Nat)) (s s2 : ReplayState) :
    stepRecord d mode data ptr pb pp s = .haltStep s2 →
    load32 data ptr = 5 ∧ s2.player_current_ptr = ptr := by
  rw [stepRecord.eq_def]
  generalize load32 data ptr = ty
  intro h
  cases pp <;> cases pb <;> rcases ty with _|_|_|_|_|_|_|_|_|ty <;>
    first
      | (cases h <;> exact ⟨rfl, rfl⟩)
      | (split_ifs at h <;> cases h)

/-- The loop never touches the presentation log, the swap mode or the
playing flag, whatever its outcome. -/
theorem playLoopFuel_fixed_fields (d : Bytes → Bytes) (mode : TracePlaybackMode)
    (data : Bytes) (e : Nat) :
    ∀ f ptr pb pp s,
      (stateOf (playLoopFuel d mode data e f ptr pb pp s)).swaps = s.swaps ∧
      (stateOf (playLoopFuel d mode data e f ptr pb pp s)).swap_mode = s.swap_mode ∧
      (stateOf (playLoopFuel d mode data e f ptr pb pp s)).playing_trace = s.playing_trace := by
  intro f
  induction f with
  | zero => intro ptr pb pp s; simp [playLoopFuel, stateOf]
  | succ f ih =>
    intro ptr pb pp s
    simp only [playLoopFuel]
    split
    · have hstep := stepRecord_fixed_fields d mode data ptr pb pp s
      cases h : stepRecord d mode data ptr pb pp s with
      | advance sz pb2 pp2 s2 =>
        rw [h] at hstep
        simp only [stepState] at hstep
        have hloop := ih (ptr + sz) pb2 pp2 s2
        exact ⟨hloop.1.trans hstep.1, hloop.2.1.trans hstep.2.1, hloop.2.2.trans hstep.2.2⟩
      | haltStep s2 => rw [h] at hstep; simpa [stateOf, stepState] using hstep
      | corruptStep s2 => rw [h] at hstep; simpa [stateOf, stepState] using hstep
      | stuckStep s2 => rw [h] at hstep; simpa [stateOf, stepState] using hstep
    · simp [stateOf]

/-- A halted loop left the player cursor on a PacketEnd record. -/
theorem playLoopFuel_halted_tag (d : Bytes → Bytes) (mode : TracePlaybackMode)
    (data : Bytes) (e : Nat) :
    ∀ f ptr pb pp s s2,
      playLoopFuel d mode data e f ptr pb pp s = .halted s2 →
      load32 data s2.player_current_ptr = 5 := by
  intro f
  induction f with
  | zero => intro ptr pb pp s s2 h; simp [playLoopFuel] at h
  | succ f ih =>
    intro ptr pb pp s s2 h
    simp only [playLoopFuel] at h
    split at h
    · cases hs : stepRecord d mode data ptr pb pp s with
      | advance sz pb2 pp2 s3 =>
        rw [hs] at h
        exact ih (ptr + sz) pb2 pp2 s3 s2 h
      | haltStep s3 =>
        rw [hs] at h
        cases h
        have := stepRecord_halt_shape d mode data ptr pb pp s s2 hs
        rw [this.2]
        exact this.1
      | corruptStep s3 => rw [hs] at h; cases h
      | stuckStep s3 => rw [hs] at h; cases h
    · cases h

/-- When the range is not yet exhausted and the step advances, one unit
of fuel is consumed. -/
theorem playLoopFuel_succ_step (d : Bytes → Bytes) (mode : TracePlaybackMode) (data : Bytes)
    (e f ptr : Nat) (pb : Bool) (pp : Option (Nat × Nat)) (s : ReplayState)
    (sz : Nat) (pb2 : Bool) (pp2 : Option (Nat × Nat)) (s2 : ReplayState)
    (h1 : ptr < e) (h2 : stepRecord d mode data ptr pb pp s = .advance sz pb2 pp2 s2) :
    playLoopFuel d mode data e (f + 1) ptr pb pp s =
      playLoopFuel d mode data e f (ptr + sz) pb2 pp2 s2 := by
  simp only [playLoopFuel]
  rw [if_pos h1, h2]

/-- A CorruptTrace step aborts the loop. -/
theorem playLoopFuel_succ_corrupt (d : Bytes → Bytes) (mode : TracePlaybackMode) (data : Bytes)
    (e f ptr : Nat) (pb : Bool) (pp : Option (Nat × Nat)) (s s2 : ReplayState)
    (h1 : ptr < e) (h2 : stepRecord d mode data ptr pb pp s = .corruptStep s2) :
    playLoopFuel d mode data e (f + 1) ptr pb pp s = .corrupt s2 := by
  simp only [playLoopFuel]
  rw [if_pos h1, h2]

/-- With the cursor at or past the end of the range and at least one unit
of fuel, the loop exits normally at once. -/
theorem playLoopFuel_finish (d : Bytes → Bytes) (mode : TracePlaybackMode) (data : Bytes)
    (e f ptr : Nat) (pb : Bool) (pp : Option (Nat × Nat)) (s : ReplayState)
    (h1 : e ≤ ptr) (h2 : 1 ≤ f) :
    playLoopFuel d mode data e f ptr pb pp s = .finished ptr pb pp s := by
  cases f with
  | zero => omega
  | succ f => simp only [playLoopFuel]; rw [if_neg (by omega)]

/-- C2 amended: under BreakOnSwap, a triggered stop takes effect at the
first PacketEnd at or after the Swap event, not at the PacketEnd that
precedes it.  In general a halted invocation returns with the player
cursor on a PacketEnd record (a stop never happens mid-packet) and
issues no presentation (the swap log is unchanged).  On the canonical
shape PacketStart, PacketEnd, Event(Swap), PacketStart, PacketEnd, the
replay therefore executes both packets, in order, and halts at the
second PacketEnd (offset 44), after completing the second packet. -/
theorem claimC2_swap_between_packets :
    (∀ (d : Bytes → Bytes) (mode : TracePlaybackMode) (data : Bytes)
        (startPos size : Nat) (s : ReplayState),
      (PlayTraceOnThread d data startPos size mode s).1 = .halted →
        ((PlayTraceOnThread d data startPos size mode s).2).swaps = s.swaps ∧
        load32 data ((PlayTraceOnThread d data startPos size mode s).2).player_current_ptr = 5) ∧
    ((PlayTraceOnThread zeroDecomp (c2trace 170 0 0 0 187 0 0 0) 0 48
        .kBreakOnSwap initState).1 = .halted ∧
      ((PlayTraceOnThread zeroDecomp (c2trace 170 0 0 0 187 0 0 0) 0 48
        .kBreakOnSwap initState).2).executed = [(4096, 1), (8192, 1)] ∧
      ((PlayTraceOnThread zeroDecomp (c2trace 170 0 0 0 187 0 0 0) 0 48
        .kBreakOnSwap initState).2).swaps = [] ∧
      ((PlayTraceOnThread zeroDecomp (c2trace 170 0 0 0 187 0 0 0) 0 48
        .kBreakOnSwap initState).2).player_current_ptr = 44 ∧
      ((PlayTraceOnThread zeroDecomp (c2trace 170 0 0 0 187 0 0 0) 0 48
        .kBreakOnSwap initState).2).memory 4096 = 170 ∧
      ((PlayTraceOnThread zeroDecomp (c2trace 170 0 0 0 187 0 0 0) 0 48
        .kBreakOnSwap initState).2).memory 8192 = 187) := by
  constructor
  · intro d mode data startPos size s h
    unfold PlayTraceOnThread at h ⊢
    cases hr : playLoop d mode data (startPos + size) startPos false none
        (initRun startPos size s) with
    | finished p pb pp s2 => rw [hr] at h; cases h
    | halted s2 =>
      have hfu : playLoopFuel d mode data (startPos + size)
          (startPos + size - startPos + 1) startPos false none (initRun startPos size s) =
          .halted s2 := hr
      refine ⟨?_, ?_⟩
      · have hfix := playLoopFuel_fixed_fields d mode data (startPos + size)
          (startPos + size - startPos + 1) startPos false none (initRun startPos size s)
        rw [hfu] at hfix
        simpa [stateOf, initRun] using hfix.1
      · exact playLoopFuel_halted_tag d mode data (startPos + size)
          (startPos + size - startPos + 1) startPos false none (initRun startPos size s) s2 hfu
    | corrupt s2 => rw [hr] at h; cases h
    | stuck p s2 => rw [hr] at h; cases h
    | fuelOut s2 => rw [hr] at h; cases h
  · exact ⟨rfl, rfl, rfl, rfl, rfl, rfl⟩

/-- Witness for the general part of C2 at a concrete halted replay. -/
theorem claimC2_swap_between_packets_witness :
    ((PlayTraceOnThread zeroDecomp [8,0,0,0, 0,0,0,0, 5,0,0,0] 0 12
        .kBreakOnSwap initState).2).swaps = [] ∧
    load32 [8,0,0,0, 0,0,0,0, 5,0,0,0]
      ((PlayTraceOnThread zeroDecomp [8,0,0,0, 0,0,0,0, 5,0,0,0] 0 12
        .kBreakOnSwap initState).2).player_current_ptr = 5 :=
  claimC2_swap_between_packets.1 zeroDecomp .kBreakOnSwap
    [8,0,0,0, 0,0,0,0, 5,0,0,0] 0 12 initState rfl

/-- C3 counterexample: a replay halted by a triggered stop (Event(Swap)
then PacketEnd) returns with the dispatch mode still suppressed and the
playing flag still raised: the swap mode is not restored and the engine
does not return to Idle. -/
theorem claimC3_counterexample :
    (PlayTraceOnThread zeroDecomp [8,0,0,0, 0,0,0,0, 5,0,0,0] 0 12
        .kBreakOnSwap initState).1 = .halted ∧
    ((PlayTraceOnThread zeroDecomp [8,0,0,0, 0,0,0,0, 5,0,0,0] 0 12
        .kBreakOnSwap initState).2).swap_mode = .kIgnored ∧
    ((PlayTraceOnThread zeroDecomp [8,0,0,0, 0,0,0,0, 5,0,0,0] 0 12
        .kBreakOnSwap initState).2).playing_trace = true :=
  ⟨rfl, rfl, rfl⟩

/-- C3 amended: a replay invocation sets the dispatch mode to suppressed
at its start; when the byte range is exhausted the mode is restored to
normal and the engine returns to Idle, but when the invocation is halted
by a triggered stop at a PacketEnd boundary the early return skips the
epilogue: the dispatch mode is left suppressed and the engine is left
marked as replaying. -/
theorem claimC3_swap_mode_restore (d : Bytes → Bytes) (data : Bytes) (startPos size : Nat)
    (mode : TracePlaybackMode) (s : ReplayState) :
    ((PlayTraceOnThread d data startPos size mode s).1 = .finished →
      ((PlayTraceOnThread d data startPos size mode s).2).swap_mode = .kNormal ∧
      ((PlayTraceOnThread d data startPos size mode s).2).playing_trace = false) ∧
    ((PlayTraceOnThread d data startPos size mode s).1 = .halted →
      ((PlayTraceOnThread d data startPos size mode s).2).swap_mode = .kIgnored ∧
      ((PlayTraceOnThread d data startPos size mode s).2).playing_trace = true) := by
  unfold PlayTraceOnThread
  cases hr : playLoop d mode data (startPos + size) startPos false none
      (initRun startPos size s) with
  | finished p pb pp s2 =>
    constructor
    · intro _; exact ⟨rfl, rfl⟩
    · intro hh; cases hh
  | halted s2 =>
    have hfu : playLoopFuel d mode data (startPos + size)
        (startPos + size - startPos + 1) startPos false none (initRun startPos size s) =
        .halted s2 := hr
    have hfix := playLoopFuel_fixed_fields d mode data (startPos + size)
      (startPos + size - startPos + 1) startPos false none (initRun startPos size s)
    rw [hfu] at hfix
    constructor
    · intro hh; cases hh
    · intro _
      constructor
      · simpa [stateOf, initRun] using hfix.2.1
      · simpa [stateOf, initRun] using hfix.2.2
  | corrupt s2 => refine ⟨?_, ?_⟩ <;> intro hh <;> cases hh
  | stuck p s2 => refine ⟨?_, ?_⟩ <;> intro hh <;> cases hh
  | fuelOut s2 => refine ⟨?_, ?_⟩ <;> intro hh <;> cases hh

/-- Witness for C3: a finishing run restores the mode and a halted run
leaves it suppressed. -/
theorem claimC3_swap_mode_restore_witness :
    (((PlayTraceOnThread zeroDecomp [1, 0, 0, 0] 0 4 .kBreakOnSwap initState).2).swap_mode =
        .kNormal ∧
      ((PlayTraceOnThread zeroDecomp [1, 0, 0, 0] 0 4 .kBreakOnSwap initState).2).playing_trace =
        false) ∧
    (((PlayTraceOnThread zeroDecomp [8,0,0,0, 0,0,0,0, 5,0,0,0] 0 12
          .kBreakOnSwap initState).2).swap_mode = .kIgnored ∧
      ((PlayTraceOnThread zeroDecomp [8,0,0,0, 0,0,0,0, 5,0,0,0] 0 12
          .kBreakOnSwap initState).2).playing_trace = true) :=
  ⟨(claimC3_swap_mode_restore zeroDecomp [1, 0, 0, 0] 0 4 .kBreakOnSwap initState).1 rfl,
   (claimC3_swap_mode_restore zeroDecomp [8,0,0,0, 0,0,0,0, 5,0,0,0] 0 12
      .kBreakOnSwap initState).2 rfl⟩

/-- C8: a single MemoryRead record replayed on its own byte range copies
exactly its length payload bytes verbatim to the base address when the
declared full length is zero; otherwise the payload is decompressed and
the result is written at the base address when its byte count equals the
declared full length, and the replay aborts with CorruptTrace when the
decompressed byte count differs, leaving memory untouched. -/
theorem claimC8_memory_read (d : Bytes → Bytes) (mode : TracePlaybackMode) (data : Bytes)
    (s : ReplayState) (hTag : load32 data 0 = 6) :
    (load32 data 12 = 0 →
      (PlayTraceOnThread d data 0 (16 + load32 data 8) mode s).1 = .finished ∧
      ((PlayTraceOnThread d data 0 (16 + load32 data 8) mode s).2).memory =
        writeBytes s.memory (load32 data 4) (slice data 16 (load32 data 8))) ∧
    (load32 data 12 ≠ 0 → (d (slice data 16 (load32 data 8))).length = load32 data 12 →
      (PlayTraceOnThread d data 0 (16 + load32 data 8) mode s).1 = .finished ∧
      ((PlayTraceOnThread d data 0 (16 + load32 data 8) mode s).2).memory =
        writeBytes s.memory (load32 data 4) (d (slice data 16 (load32 data 8)))) ∧
    (load32 data 12 ≠ 0 → (d (slice data 16 (load32 data 8))).length ≠ load32 data 12 →
      (PlayTraceOnThread d data 0 (16 + load32 data 8) mode s).1 = .corrupt ∧
      ((PlayTraceOnThread d data 0 (16 + load32 data 8) mode s).2).memory = s.memory) := by
  refine ⟨?_, ?_, ?_⟩
  · intro h
    have hstep : stepRecord d mode data 0 false none (initRun 0 (16 + load32 data 8) s) =
        .advance (16 + load32 data 8) false none
          {initRun 0 (16 + load32 data 8) s with
            player_current_ptr := 0
            memory := writeBytes s.memory (load32 data 4) (slice data 16 (load32 data 8))} := by
      simp [stepRecord, hTag, h, initRun]
    unfold PlayTraceOnThread playLoop
    simp only [Nat.zero_add, Nat.sub_zero]
    rw [playLoopFuel_succ_step d mode data (16 + load32 data 8) (16 + load32 data 8) 0
        false none (initRun 0 (16 + load32 data 8) s) (16 + load32 data 8) false none
        _ (by omega) hstep]
    simp only [Nat.zero_add]
    rw [playLoopFuel_finish d mode data (16 + load32 data 8) (16 + load32 data 8)
        (16 + load32 data 8) false none _ (Nat.le_refl _) (by omega)]
    exact ⟨rfl, rfl⟩
  · intro h h2
    have hstep : stepRecord d mode data 0 false none (initRun 0 (16 + load32 data 8) s) =
        .advance (16 + load32 data 8) false none
          {initRun 0 (16 + load32 data 8) s with
            player_current_ptr := 0
            memory := writeBytes s.memory (load32 data 4)
              (d (slice data 16 (load32 data 8)))} := by
      simp [stepRecord, hTag, h, h2, initRun]
    unfold PlayTraceOnThread playLoop
    simp only [Nat.zero_add, Nat.sub_zero]
    rw [playLoopFuel_succ_step d mode data (16 + load32 data 8) (16 + load32 data 8) 0
        false none (initRun 0 (16 + load32 data 8) s) (16 + load32 data 8) false none
        _ (by omega) hstep]
    simp only [Nat.zero_add]
    rw [playLoopFuel_finish d mode data (16 + load32 data 8) (16 + load32 data 8)
        (16 + load32 data 8) false none _ (Nat.le_refl _) (by omega)]
    exact ⟨rfl, rfl⟩
  · intro h h2
    have hstep : stepRecord d mode data 0 false none (initRun 0 (16 + load32 data 8) s) =
        .corruptStep {initRun 0 (16 + load32 data 8) s with player_current_ptr := 0} := by
      simp [stepRecord, hTag, h, h2, initRun]
    unfold PlayTraceOnThread playLoop
    simp only [Nat.zero_add, Nat.sub_zero]
    rw [playLoopFuel_succ_corrupt d mode data (16 + load32 data 8) (16 + load32 data 8) 0
        false none (initRun 0 (16 + load32 data 8) s) _ (by omega) hstep]
    exact ⟨rfl, rfl⟩

/-- Witness for C8: a raw two-byte copy and a failing decompression. -/
theorem claimC8_memory_read_witness :
    ((PlayTraceOnThread zeroDecomp [6,0,0,0, 0,16,0,0, 2,0,0,0, 0,0,0,0, 9, 7] 0
        (16 + load32 [6,0,0,0, 0,16,0,0, 2,0,0,0, 0,0,0,0, 9, 7] 8)
        .kBreakOnSwap initState).1 = .finished ∧
      ((PlayTraceOnThread zeroDecomp [6,0,0,0, 0,16,0,0, 2,0,0,0, 0,0,0,0, 9, 7] 0
        (16 + load32 [6,0,0,0, 0,16,0,0, 2,0,0,0, 0,0,0,0, 9, 7] 8)
        .kBreakOnSwap initState).2).memory =
        writeBytes initState.memory 4096
          (slice [6,0,0,0, 0,16,0,0, 2,0,0,0, 0,0,0,0, 9, 7] 16 2)) ∧
    ((PlayTraceOnThread zeroDecomp [6,0,0,0, 0,16,0,0, 1,0,0,0, 5,0,0,0, 9] 0
        (16 + load32 [6,0,0,0, 0,16,0,0, 1,0,0,0, 5,0,0,0, 9] 8)
        .kBreakOnSwap initState).1 = .corrupt ∧
      ((PlayTraceOnThread zeroDecomp [6,0,0,0, 0,16,0,0, 1,0,0,0, 5,0,0,0, 9] 0
        (16 + load32 [6,0,0,0, 0,16,0,0, 1,0,0,0, 5,0,0,0, 9] 8)
        .kBreakOnSwap initState).2).memory = initState.memory) :=
  ⟨(claimC8_memory_read zeroDecomp .kBreakOnSwap
      [6,0,0,0, 0,16,0,0, 2,0,0,0, 0,0,0,0, 9, 7] initState rfl).1 rfl,
   (claimC8_memory_read zeroDecomp .kBreakOnSwap
      [6,0,0,0, 0,16,0,0, 1,0,0,0, 5,0,0,0, 9] initState rfl).2.2 (by decide) (by decide)⟩

/-- C6: seeking to a valid frame different from the current one sets the
frame cursor to the target, sets the command cursor to the last command
index of that frame, submits exactly one replay covering the whole frame
byte range with BreakOnSwap, and current_frame afterwards returns that
frame. -/
theorem claimC6_seek_frame (p : SeekState) (F : Int) (h1 : p.current_frame_index ≠ F)
    (h2 : 0 ≤ F) (h3 : F < (p.frames.length : Int)) :
    (SeekFrame p F).current_frame_index = F ∧
    (SeekFrame p F).current_command_index = ((frameAt p F).commands.length : Int) - 1 ∧
    (SeekFrame p F).submitted = p.submitted ++
      [((frameAt p F).start_ptr, (frameAt p F).end_ptr - (frameAt p F).start_ptr,
        TracePlaybackMode.kBreakOnSwap)] ∧
    current_frame (SeekFrame p F) = some (frameAt p F) := by
  have hne : ¬ p.current_frame_index = F := h1
  have hnot : ¬ ((p.frames.length : Int) < F) := by omega
  refine ⟨?_, ?_, ?_, ?_⟩
  · simp [SeekFrame, if_neg hne]
  · simp [SeekFrame, if_neg hne, frameAt]
  · simp [SeekFrame, if_neg hne, frameAt]
  · simp [SeekFrame, if_neg hne, current_frame, hnot, frameAt]

/-- Witness for C6 at a concrete two-entry submission-free state. -/
theorem claimC6_seek_frame_witness :
    (SeekFrame
        { frames := [{ start_ptr := 10, end_ptr := 20, commands := [{end_ptr := 20}] }],
          current_frame_index := 1, current_command_index := -1, submitted := [] }
        0).current_frame_index = 0 ∧
    (SeekFrame
        { frames := [{ start_ptr := 10, end_ptr := 20, commands := [{end_ptr := 20}] }],
          current_frame_index := 1, current_command_index := -1, submitted := [] }
        0).current_command_index = 0 ∧
    (SeekFrame
        { frames := [{ start_ptr := 10, end_ptr := 20, commands := [{end_ptr := 20}] }],
          current_frame_index := 1, current_command_index := -1, submitted := [] }
        0).submitted = [(10, 10, TracePlaybackMode.kBreakOnSwap)] ∧
    current_frame (SeekFrame
        { frames := [{ start_ptr := 10, end_ptr := 20, commands := [{end_ptr := 20}] }],
          current_frame_index := 1, current_command_index := -1, submitted := [] }
        0) = some { start_ptr := 10, end_ptr := 20, commands := [{end_ptr := 20}] } :=
  claimC6_seek_frame
    { frames := [{ start_ptr := 10, end_ptr := 20, commands := [{end_ptr := 20}] }],
      current_frame_index := 1, current_command_index := -1, submitted := [] }
    0 (by decide) (by decide) (by decide)

/-- C7: seeking to a command different from the current one sets the
command cursor to the target; target -1 submits no replay; a target that
is the immediate successor of a previously current command (previous
index at least 0) submits exactly the incremental delta range; any other
valid target submits the full range from the frame start; both
submissions use BreakOnSwap. -/
theorem claimC7_seek_command (p : SeekState) (t : Int)
    (h1 : p.current_command_index ≠ t)
    (hv : t = -1 ∨ (0 ≤ t ∧ t < ((frameAt p p.current_frame_index).commands.length : Int))) :
    (SeekCommand p t).current_command_index = t ∧
    (t = -1 → (SeekCommand p t).submitted = p.submitted) ∧
    (0 ≤ p.current_command_index ∧ t = p.current_command_index + 1 →
      (SeekCommand p t).submitted = p.submitted ++
        [(((frameAt p p.current_frame_index).commands.getD (t - 1).toNat {end_ptr := 0}).end_ptr,
          ((frameAt p p.current_frame_index).commands.getD t.toNat {end_ptr := 0}).end_ptr -
            ((frameAt p p.current_frame_index).commands.getD (t - 1).toNat {end_ptr := 0}).end_ptr,
          TracePlaybackMode.kBreakOnSwap)]) ∧
    (t ≠ -1 → ¬ (0 ≤ p.current_command_index ∧ t = p.current_command_index + 1) →
      (SeekCommand p t).submitted = p.submitted ++
        [((frameAt p p.current_frame_index).start_ptr,
          ((frameAt p p.current_frame_index).commands.getD t.toNat {end_ptr := 0}).end_ptr -
            (frameAt p p.current_frame_index).start_ptr,
          TracePlaybackMode.kBreakOnSwap)]) := by
  have hne : ¬ p.current_command_index = t := h1
  have hfr : frameAt {p with current_command_index := t} p.current_frame_index =
      frameAt p p.current_frame_index := rfl
  refine ⟨?_, ?_, ?_, ?_⟩
  · simp only [SeekCommand, if_neg hne]
    by_cases ht : t = -1
    · simp [ht]
    · simp only [if_neg ht]
      by_cases hc : t ≠ 0 ∧ p.current_command_index = t - 1
      · simp [hc]
      · simp [hc]
  · intro ht
    subst ht
    simp [SeekCommand, if_neg hne]
  · intro hinc
    have ht : ¬ t = -1 := by omega
    have hc : t ≠ 0 ∧ p.current_command_index = t - 1 := by
      constructor <;> omega
    simp only [SeekCommand, if_neg hne, if_neg ht, if_pos hc, hfr]
  · intro ht hnot
    have hge : 0 ≤ t := by
      rcases hv with hv | hv
      · exact absurd hv ht
      · exact hv.1
    have hc : ¬ (t ≠ 0 ∧ p.current_command_index = t - 1) := by
      intro hcontra
      exact hnot ⟨by omega, by omega⟩
    simp only [SeekCommand, if_neg hne, if_neg ht, if_neg hc, hfr]

/-- Witness for C7: an incremental single step from command 0 to
command 1 submits exactly the delta range. -/
theorem claimC7_seek_command_witness :
    (SeekCommand
        { frames := [{ start_ptr := 10, end_ptr := 30,
                       commands := [{end_ptr := 20}, {end_ptr := 30}] }],
          current_frame_index := 0, current_command_index := 0, submitted := [] }
        1).current_command_index = 1 ∧
    (SeekCommand
        { frames := [{ start_ptr := 10, end_ptr := 30,
                       commands := [{end_ptr := 20}, {end_ptr := 30}] }],
          current_frame_index := 0, current_command_index := 0, submitted := [] }
        1).submitted = [(20, 10, TracePlaybackMode.kBreakOnSwap)] :=
  ⟨(claimC7_seek_command
      { frames := [{ start_ptr := 10, end_ptr := 30,
                     commands := [{end_ptr := 20}, {end_ptr := 30}] }],
        current_frame_index := 0, current_command_index := 0, submitted := [] }
      1 (by decide) (by decide)).1,
   (claimC7_seek_command
      { frames := [{ start_ptr := 10, end_ptr := 30,
                     commands := [{end_ptr := 20}, {end_ptr := 30}] }],
        current_frame_index := 0, current_command_index := 0, submitted := [] }
      1 (by decide) (by decide)).2.2.1 ⟨by decide, by decide⟩⟩

/-- Every recognised record advances the cursor by at least one byte. -/
theorem stepRecord_advance_pos (d : Bytes → Bytes) (mode : TracePlaybackMode) (data : Bytes)
    (ptr : Nat) (pb : Bool) (pp : Option (Nat × Nat)) (s : ReplayState)
    (sz : Nat) (pb2 : Bool) (pp2 : Option (Nat × Nat)) (s2 : ReplayState) :
    stepRecord d mode data ptr pb pp s = .advance sz pb2 pp2 s2 → 1 ≤ sz := by
  rw [stepRecord.eq_def]
  generalize load32 data ptr = ty
  intro h
  cases pp <;> cases pb <;> rcases ty with _|_|_|_|_|_|_|_|_|ty <;>
    first
      | (cases h <;> omega)
      | (split_ifs at h <;> cases h <;> omega)

/-- A loop run that does not exhaust its fuel gives the same result with
any larger fuel. -/
theorem playLoopFuel_mono (d : Bytes → Bytes) (mode : TracePlaybackMode) (data : Bytes)
    (e : Nat) :
    ∀ f g ptr pb pp s r, f ≤ g →
      playLoopFuel d mode data e f ptr pb pp s = r → isFuelOut r = false →
      playLoopFuel d mode data e g ptr pb pp s = r := by
  intro f
  induction f with
  | zero =>
    intro g ptr pb pp s r hle h hnf
    rw [← h] at hnf
    simp [playLoopFuel, isFuelOut] at hnf
  | succ f ih =>
    intro g ptr pb pp s r hle h hnf
    cases g with
    | zero => omega
    | succ g =>
      simp only [playLoopFuel] at h ⊢
      by_cases hp : ptr < e
      · rw [if_pos hp] at h ⊢
        cases hs : stepRecord d mode data ptr pb pp s with
        | advance sz pb2 pp2 s2 =>
          rw [hs] at h
          exact ih g (ptr + sz) pb2 pp2 s2 r (by omega) h hnf
        | haltStep s2 => rw [hs] at h; exact h
        | corruptStep s2 => rw [hs] at h; exact h
        | stuckStep s2 => rw [hs] at h; exact h
      · rw [if_neg hp] at h ⊢; exact h

/-- Fuel one more than the width of the remaining range is always enough:
the loop never reports fuel exhaustion. -/
theorem playLoopFuel_adequate (d : Bytes → Bytes) (mode : TracePlaybackMode) (data : Bytes)
    (e : Nat) :
    ∀ f ptr pb pp s, e - ptr < f →
      isFuelOut (playLoopFuel d mode data e f ptr pb pp s) = false := by
  intro f
  induction f with
  | zero => intro ptr pb pp s h; omega
  | succ f ih =>
    intro ptr pb pp s h
    simp only [playLoopFuel]
    by_cases hp : ptr < e
    · rw [if_pos hp]
      cases hs : stepRecord d mode data ptr pb pp s with
      | advance sz pb2 pp2 s2 =>
        have hsz := stepRecord_advance_pos d mode data ptr pb pp s sz pb2 pp2 s2 hs
        exact ih (ptr + sz) pb2 pp2 s2 (by omega)
      | haltStep s2 => rfl
      | corruptStep s2 => rfl
      | stuckStep s2 => rfl
    · rw [if_neg hp]; rfl

/-- Any fuelled run that terminates agrees with the wrapper. -/
theorem playLoop_ofFuel (d : Bytes → Bytes) (mode : TracePlaybackMode) (data : Bytes)
    (e f ptr : Nat) (pb : Bool) (pp : Option (Nat × Nat)) (s : ReplayState) (r : LoopResult)
    (h : playLoopFuel d mode data e f ptr pb pp s = r) (hnf : isFuelOut r = false) :
    playLoop d mode data e ptr pb pp s = r := by
  have h1 := playLoopFuel_adequate d mode data e (e - ptr + 1) ptr pb pp s (by omega)
  have h2 := playLoopFuel_mono d mode data e f (f + (e - ptr + 1)) ptr pb pp s r (by omega) h hnf
  have h3 := playLoopFuel_mono d mode data e (e - ptr + 1) (f + (e - ptr + 1)) ptr pb pp s
    (playLoopFuel d mode data e (e - ptr + 1) ptr pb pp s) (by omega) rfl h1
  unfold playLoop
  rw [← h3]
  exact h2

/-- Splitting a loop run at an intermediate boundary: if the loop over
[ptr, b) exits normally at p1, then the loop over the wider range [ptr, c)
coincides with resuming from p1 with the carried flags and state. -/
theorem playLoopFuel_split (d : Bytes → Bytes) (mode : TracePlaybackMode) (data : Bytes)
    (b c : Nat) (hbc : b ≤ c) :
    ∀ f1 ptr pb pp s p1 pb1 pp1 s1 r,
      playLoopFuel d mode data b f1 ptr pb pp s = .finished p1 pb1 pp1 s1 →
      isFuelOut r = false →
      playLoop d mode data c p1 pb1 pp1 s1 = r →
      playLoop d mode data c ptr pb pp s = r := by
  intro f1
  induction f1 with
  | zero =>
    intro ptr pb pp s p1 pb1 pp1 s1 r h hnf hrun
    simp [playLoopFuel] at h
  | succ f ih =>
    intro ptr pb pp s p1 pb1 pp1 s1 r h hnf hrun
    simp only [playLoopFuel] at h
    by_cases hp : ptr < b
    · rw [if_pos hp] at h
      cases hs : stepRecord d mode data ptr pb pp s with
      | advance sz pb2 pp2 s2 =>
        rw [hs] at h
        have hrec := ih (ptr + sz) pb2 pp2 s2 p1 pb1 pp1 s1 r h hnf hrun
        have hone : playLoopFuel d mode data c ((c - (ptr + sz) + 1) + 1) ptr pb pp s =
            playLoopFuel d mode data c (c - (ptr + sz) + 1) (ptr + sz) pb2 pp2 s2 :=
          playLoopFuel_succ_step d mode data c (c - (ptr + sz) + 1) ptr pb pp s sz pb2 pp2 s2
            (lt_of_lt_of_le hp hbc) hs
        exact playLoop_ofFuel d mode data c ((c - (ptr + sz) + 1) + 1) ptr pb pp s r
          (hone.trans hrec) hnf
      | haltStep s2 => rw [hs] at h; cases h
      | corruptStep s2 => rw [hs] at h; cases h
      | stuckStep s2 => rw [hs] at h; cases h
    · rw [if_neg hp] at h
      cases h
      exact hrun

/-- Wrapper form of the splitting lemma. -/
theorem playLoop_split (d : Bytes → Bytes) (mode : TracePlaybackMode) (data : Bytes)
    (b c ptr : Nat) (pb : Bool) (pp : Option (Nat × Nat)) (s : ReplayState)
    (p1 : Nat) (pb1 : Bool) (pp1 : Option (Nat × Nat)) (s1 : ReplayState)
    (hbc : b ≤ c)
    (h : playLoop d mode data b ptr pb pp s = .finished p1 pb1 pp1 s1) :
    playLoop d mode data c ptr pb pp s = playLoop d mode data c p1 pb1 pp1 s1 := by
  have hnf := playLoopFuel_adequate d mode data c (c - p1 + 1) p1 pb1 pp1 s1 (by omega)
  exact playLoopFuel_split d mode data b c hbc (b - ptr + 1) ptr pb pp s p1 pb1 pp1 s1
    (playLoop d mode data c p1 pb1 pp1 s1) h hnf rfl

/-- One step behaves the same, control-wise, whatever pending packet and
state it is given. -/
theorem stepRecord_ctl_agree (d : Bytes → Bytes) (mode : TracePlaybackMode) (data : Bytes)
    (ptr : Nat) (pb : Bool) (pp pp2 : Option (Nat × Nat)) (s s2 : ReplayState) :
    StepCtlAgree (stepRecord d mode data ptr pb pp s) (stepRecord d mode data ptr pb pp2 s2) := by
  simp only [stepRecord.eq_def]
  generalize load32 data ptr = ty
  cases pp <;> cases pp2 <;> cases pb <;> rcases ty with _|_|_|_|_|_|_|_|_|ty <;>
    first
      | exact ⟨rfl, rfl⟩
      | trivial
      | (split_ifs <;> first | exact ⟨rfl, rfl⟩ | trivial)

/-- One step preserves agreement of memories: two steps at the same cursor
with the same pending-break flag, on states with equal memories, advance
identically and keep the memories equal. -/
theorem stepRecord_mem_agree (d : Bytes → Bytes) (mode : TracePlaybackMode) (data : Bytes)
    (ptr : Nat) (pb : Bool) (pp pp2 : Option (Nat × Nat)) (s s2 : ReplayState)
    (hm : s.memory = s2.memory) :
    StepMemAgree (stepRecord d mode data ptr pb pp s) (stepRecord d mode data ptr pb pp2 s2) := by
  simp only [stepRecord.eq_def]
  generalize load32 data ptr = ty
  cases pp <;> cases pp2 <;> cases pb <;> rcases ty with _|_|_|_|_|_|_|_|_|ty <;>
    first
      | exact ⟨rfl, rfl, hm⟩
      | exact ⟨rfl, rfl, by rw [hm]⟩
      | exact hm
      | (split_ifs <;>
          first
            | exact ⟨rfl, rfl, hm⟩
            | exact ⟨rfl, rfl, by rw [hm]⟩
            | exact hm)

/-- The control outcome of the loop does not depend on the pending packet
it starts with nor on the state it carries. -/
theorem loopFuel_ctl_agree (d : Bytes → Bytes) (mode : TracePlaybackMode) (data : Bytes)
    (e : Nat) :
    ∀ f ptr pb pp pp2 s s2,
      ctlOf (playLoopFuel d mode data e f ptr pb pp s) =
        ctlOf (playLoopFuel d mode data e f ptr pb pp2 s2) := by
  intro f
  induction f with
  | zero => intro ptr pb pp pp2 s s2; rfl
  | succ f ih =>
    intro ptr pb pp pp2 s s2
    simp only [playLoopFuel]
    by_cases hp : ptr < e
    · rw [if_pos hp, if_pos hp]
      have hag := stepRecord_ctl_agree d mode data ptr pb pp pp2 s s2
      cases h1 : stepRecord d mode data ptr pb pp s with
      | advance sz pbA ppA sA =>
        cases h2 : stepRecord d mode data ptr pb pp2 s2 with
        | advance sz2 pbB ppB sB =>
          rw [h1, h2] at hag
          obtain ⟨hsz, hpb⟩ := hag
          subst hsz
          subst hpb
          exact ih (ptr + sz) pbA ppA ppB sA sB
        | haltStep sB => rw [h1, h2] at hag; exact hag.elim
        | corruptStep sB => rw [h1, h2] at hag; exact hag.elim
        | stuckStep sB => rw [h1, h2] at hag; exact hag.elim
      | haltStep sA =>
        cases h2 : stepRecord d mode data ptr pb pp2 s2 with
        | advance sz2 pbB ppB sB => rw [h1, h2] at hag; exact hag.elim
        | haltStep sB => rfl
        | corruptStep sB => rw [h1, h2] at hag; exact hag.elim
        | stuckStep sB => rw [h1, h2] at hag; exact hag.elim
      | corruptStep sA =>
        cases h2 : stepRecord d mode data ptr pb pp2 s2 with
        | advance sz2 pbB ppB sB => rw [h1, h2] at hag; exact hag.elim
        | haltStep sB => rw [h1, h2] at hag; exact hag.elim
        | corruptStep sB => rfl
        | stuckStep sB => rw [h1, h2] at hag; exact hag.elim
      | stuckStep sA =>
        cases h2 : stepRecord d mode data ptr pb pp2 s2 with
        | advance sz2 pbB ppB sB => rw [h1, h2] at hag; exact hag.elim
        | haltStep sB => rw [h1, h2] at hag; exact hag.elim
        | corruptStep sB => rw [h1, h2] at hag; exact hag.elim
        | stuckStep sB => rfl
    · rw [if_neg hp, if_neg hp]; rfl

/-- The memory written by the loop does not depend on the pending packet
it starts with nor on the non-memory components of its state. -/
theorem loopFuel_mem_agree (d : Bytes → Bytes) (mode : TracePlaybackMode) (data : Bytes)
    (e : Nat) :
    ∀ f ptr pb pp pp2 s s2, s.memory = s2.memory →
      ResMemAgree (playLoopFuel d mode data e f ptr pb pp s)
        (playLoopFuel d mode data e f ptr pb pp2 s2) := by
  intro f
  induction f with
  | zero => intro ptr pb pp pp2 s s2 hm; exact hm
  | succ f ih =>
    intro ptr pb pp pp2 s s2 hm
    simp only [playLoopFuel]
    by_cases hp : ptr < e
    · rw [if_pos hp, if_pos hp]
      have hag := stepRecord_mem_agree d mode data ptr pb pp pp2 s s2 hm
      cases h1 : stepRecord d mode data ptr pb pp s with
      | advance sz pbA ppA sA =>
        cases h2 : stepRecord d mode data ptr pb pp2 s2 with
        | advance sz2 pbB ppB sB =>
          rw [h1, h2] at hag
          obtain ⟨hsz, hpb, hmm⟩ := hag
          subst hsz
          subst hpb
          exact ih (ptr + sz) pbA ppA ppB sA sB hmm
        | haltStep sB => rw [h1, h2] at hag; exact hag.elim
        | corruptStep sB => rw [h1, h2] at hag; exact hag.elim
        | stuckStep sB => rw [h1, h2] at hag; exact hag.elim
      | haltStep sA =>
        cases h2 : stepRecord d mode data ptr pb pp2 s2 with
        | advance sz2 pbB ppB sB => rw [h1, h2] at hag; exact hag.elim
        | haltStep sB => rw [h1, h2] at hag; exact hag
        | corruptStep sB => rw [h1, h2] at hag; exact hag.elim
        | stuckStep sB => rw [h1, h2] at hag; exact hag.elim
      | corruptStep sA =>
        cases h2 : stepRecord d mode data ptr pb pp2 s2 with
        | advance sz2 pbB ppB sB => rw [h1, h2] at hag; exact hag.elim
        | haltStep sB => rw [h1, h2] at hag; exact hag.elim
        | corruptStep sB => rw [h1, h2] at hag; exact hag
        | stuckStep sB => rw [h1, h2] at hag; exact hag.elim
      | stuckStep sA =>
        cases h2 : stepRecord d mode data ptr pb pp2 s2 with
        | advance sz2 pbB ppB sB => rw [h1, h2] at hag; exact hag.elim
        | haltStep sB => rw [h1, h2] at hag; exact hag.elim
        | corruptStep sB => rw [h1, h2] at hag; exact hag.elim
        | stuckStep sB => rw [h1, h2] at hag; exact ⟨rfl, hag⟩
    · rw [if_neg hp, if_neg hp]
      exact ⟨rfl, rfl, hm⟩

/-- Unpacking a control result that reports a normal exit. -/
theorem ctlOf_finished_elim (r : LoopResult) (p : Nat) (pb : Bool)
    (h : ctlOf r = .finishedC p pb) : ∃ pp s, r = .finished p pb pp s := by
  cases r with
  | finished p2 pb2 pp s =>
    simp only [ctlOf, CtlResult.finishedC.injEq] at h
    exact ⟨pp, s, by rw [h.1, h.2]⟩
  | halted s => simp [ctlOf] at h
  | corrupt s => simp [ctlOf] at h
  | stuck p2 s => simp [ctlOf] at h
  | fuelOut s => simp [ctlOf] at h

/-- A single-step range that replays cleanly has its left bound at or
before its right bound. -/
theorem segOk_le (d : Bytes → Bytes) (data : Bytes) (l e : Nat) (h : SegOk d data l e) :
    l ≤ e := by
  by_contra hlt
  push_neg at hlt
  unfold SegOk playLoop at h
  rw [show e - l = 0 from by omega] at h
  simp only [playLoopFuel] at h
  rw [if_neg (by omega)] at h
  simp only [ctlOf, CtlResult.finishedC.injEq] at h
  omega

/-- A chain of cleanly replaying single-step ranges only moves the cursor
forward. -/
theorem lastEnd_ge (d : Bytes → Bytes) (data : Bytes) :
    ∀ (es : List Nat) (e : Nat),
      (∀ pr ∈ segBounds e es, SegOk d data pr.1 pr.2) → e ≤ lastEnd e es := by
  intro es
  induction es with
  | nil => intro e _; simp [lastEnd]
  | cons e2 rest ih =>
    intro e h
    have h1 : SegOk d data e e2 := h (e, e2) (by simp [segBounds])
    have h2 := ih e2 (by
      intro pr hpr
      exact h pr (by simp only [segBounds]; exact List.mem_cons_of_mem _ hpr))
    have h3 := segOk_le d data e e2 h1
    show e ≤ lastEnd e2 rest
    omega

/-- Core of the incremental-replay equivalence: when every single-step
range replays to a clean normal exit at its end offset, the one-pass loop
over the whole range also exits cleanly at the last end offset, and its
memory equals the memory left by the chain of per-step PlayTraceOnThread
invocations. -/
theorem seekSteps_core (d : Bytes → Bytes) (data : Bytes) :
    ∀ (es : List Nat) (l : Nat) (pp : Option (Nat × Nat)) (sF sS : ReplayState),
      sF.memory = sS.memory →
      (∀ pr ∈ segBounds l es, SegOk d data pr.1 pr.2) →
      ∃ ppE sE,
        playLoop d .kBreakOnSwap data (lastEnd l es) l false pp sF =
          .finished (lastEnd l es) false ppE sE ∧
        sE.memory = (seekSteps d data l es sS).memory := by
  intro es
  induction es with
  | nil =>
    intro l pp sF sS hm _
    refine ⟨pp, sF, ?_, ?_⟩
    · exact playLoopFuel_finish d .kBreakOnSwap data (lastEnd l []) (lastEnd l [] - l + 1) l
        false pp sF (Nat.le_refl l) (by omega)
    · exact hm
  | cons e rest ih =>
    intro l pp sF sS hm hseg
    have hseg0 : SegOk d data l e := hseg (l, e) (by simp [segBounds])
    have hsegrest : ∀ pr ∈ segBounds e rest, SegOk d data pr.1 pr.2 := by
      intro pr hpr
      exact hseg pr (by simp only [segBounds]; exact List.mem_cons_of_mem _ hpr)
    have hle : l ≤ e := segOk_le d data l e hseg0
    have hle2 : e ≤ lastEnd e rest := lastEnd_ge d data rest e hsegrest
    have hctlF : ctlOf (playLoop d .kBreakOnSwap data e l false pp sF) = .finishedC e false := by
      have hag := loopFuel_ctl_agree d .kBreakOnSwap data e (e - l + 1) l false pp none
        sF initState
      exact hag.trans hseg0
    obtain ⟨ppA, sA, hA⟩ := ctlOf_finished_elim _ e false hctlF
    have hctlS : ctlOf (playLoop d .kBreakOnSwap data e l false none (initRun l (e - l) sS)) =
        .finishedC e false := by
      have hag := loopFuel_ctl_agree d .kBreakOnSwap data e (e - l + 1) l false none none
        (initRun l (e - l) sS) initState
      exact hag.trans hseg0
    obtain ⟨ppB, sB, hB⟩ := ctlOf_finished_elim _ e false hctlS
    have hmagree := loopFuel_mem_agree d .kBreakOnSwap data e (e - l + 1) l false pp none sF
      (initRun l (e - l) sS) (by simpa [initRun] using hm)
    have hA2 : playLoopFuel d .kBreakOnSwap data e (e - l + 1) l false pp sF =
        .finished e false ppA sA := hA
    have hB2 : playLoopFuel d .kBreakOnSwap data e (e - l + 1) l false none
        (initRun l (e - l) sS) = .finished e false ppB sB := hB
    rw [hA2, hB2] at hmagree
    obtain ⟨-, -, hABm⟩ := hmagree
    have hT : (PlayTraceOnThread d data l (e - l) .kBreakOnSwap sS).2 = finishRun sB := by
      unfold PlayTraceOnThread
      rw [show l + (e - l) = e from by omega, hB]
    obtain ⟨ppE, sE, hE, hEm⟩ := ih e ppA sA (finishRun sB)
      (by simpa [finishRun] using hABm) hsegrest
    refine ⟨ppE, sE, ?_, ?_⟩
    · have hsplit := playLoop_split d .kBreakOnSwap data e (lastEnd e rest) l false pp sF
        e false ppA sA hle2 hA
      show playLoop d .kBreakOnSwap data (lastEnd e rest) l false pp sF =
        .finished (lastEnd e rest) false ppE sE
      rw [hsplit]
      exact hE
    · show sE.memory = (seekSteps d data e rest
        (PlayTraceOnThread d data l (e - l) .kBreakOnSwap sS).2).memory
      rw [hT]
      exact hEm

/-- C1 amended: the incremental single-step optimisation is equivalent to
one full-path replay from the frame start, provided no step of the range
triggers a stop or aborts: when every single-step range replays to a
clean normal exit at its command end offset (SegOk, the
no-triggered-stop proviso forced by the counterexample), the one-shot
full-path invocation over the whole range finishes normally and leaves
physical memory equal to that left by the chain of single-step
invocations. -/
theorem claimC1_incremental_equiv (d : Bytes → Bytes) (data : Bytes) (a e : Nat)
    (rest : List Nat) (s0 : ReplayState)
    (hseg : ∀ pr ∈ segBounds a (e :: rest), SegOk d data pr.1 pr.2) :
    (PlayTraceOnThread d data a (lastEnd a (e :: rest) - a) .kBreakOnSwap s0).1 = .finished ∧
    ((PlayTraceOnThread d data a (lastEnd a (e :: rest) - a) .kBreakOnSwap s0).2).memory =
      (seekSteps d data a (e :: rest) s0).memory := by
  have h0 : SegOk d data a e := hseg (a, e) (by simp [segBounds])
  have h1 := lastEnd_ge d data rest e (by
    intro pr hpr
    exact hseg pr (by simp only [segBounds]; exact List.mem_cons_of_mem _ hpr))
  have h2 := segOk_le d data a e h0
  have hE : a ≤ lastEnd a (e :: rest) := by
    show a ≤ lastEnd e rest
    omega
  have hee : a + (lastEnd a (e :: rest) - a) = lastEnd a (e :: rest) := by omega
  obtain ⟨ppE, sE, hrun, hmem⟩ := seekSteps_core d data (e :: rest) a none
    (initRun a (lastEnd a (e :: rest) - a) s0) s0 (by simp [initRun]) hseg
  unfold PlayTraceOnThread
  rw [hee, hrun]
  exact ⟨rfl, by simpa [finishRun] using hmem⟩

/-- Witness for C1 on a two-command frame of raw MemoryRead records. -/
theorem claimC1_incremental_equiv_witness :
    (PlayTraceOnThread zeroDecomp c1okTrace 0 (lastEnd 0 [17, 34] - 0)
        .kBreakOnSwap initState).1 = .finished ∧
    ((PlayTraceOnThread zeroDecomp c1okTrace 0 (lastEnd 0 [17, 34] - 0)
        .kBreakOnSwap initState).2).memory =
      (seekSteps zeroDecomp c1okTrace 0 [17, 34] initState).memory :=
  claimC1_incremental_equiv zeroDecomp c1okTrace 0 17 [34] initState (by decide)

/-- C1 counterexample: on a frame whose first command contains
Event(Swap), PacketStart, PacketEnd (end offset 24) and whose second
command is a raw one-byte MemoryRead at 0x2000 (end offset 41), the
full-path replay of [0, 41) halts at the PacketEnd and never applies the
MemoryRead, while the single-step sequence does apply it: the two
physical memories differ at address 0x2000. -/
theorem claimC1_counterexample :
    (seekSteps zeroDecomp c1trace 0 [24, 41] initState).memory 8192 ≠
      ((PlayTraceOnThread zeroDecomp c1trace 0 41 .kBreakOnSwap initState).2).memory 8192 := by
  decide

end XeTrace
